import Mathlib

set_option maxRecDepth 10000

/-!
# Verification of the paperX build-orchestration core (src/main.rs)

Shallow embedding of the Rust CLI `paperx` (file `src/main.rs`):

* `SectionSplicer` (`cmd_add_section`, lines 272-292): regex-based text
  insertion into `tex/main.tex`, modelled at the character level
  (`List Char`), including the leftmost-match / greedy semantics of the
  two patterns `(?m)^%\s*paperx:sections\s*$` and `(?m)^\\end\x7bdocument\x7d`.
* `EngineResolver` (`pick_engine`, lines 315-325).
* `BuildInvoker` (`cmd_build`, lines 191-235, and `guess_pdf_path`,
  lines 327-337), with the filesystem modelled as a rose tree and the
  `walkdir` scan as a preorder traversal.
* `ChangeWatcher` (`cmd_watch`, lines 237-259): the debounce step as a
  sequential function, and the lock/read/unlock/lock/write/unlock shape of
  the notification callback as an explicit interleaving machine.
-/

namespace PaperX

/-! ## Character-level regex embedding

The Rust code uses `regex::Regex` with the patterns
`(?m)^%\s*paperx:sections\s*$` (the splice marker) and
`(?m)^\\end\x7bdocument\x7d` (the terminal directive).  We embed exactly the
needed fragment of the regex semantics over `List Char`:

* `^` matches at offset 0 and directly after a `'\n'`; `$` matches at the
  end of the haystack and directly before a `'\n'` (multi-line mode).
* `\s` is the Unicode white-space class used by the `regex` crate.
* `find`/`replace` use the leftmost match; inside one starting position the
  greedy `\s*` pieces prefer the longest extent that still lets the rest of
  the pattern match (the crate's leftmost-first preference order).
-/

/-- The `\s` class of the Rust `regex` crate (Unicode `White_Space`). -/
def isWs (c : Char) : Bool :=
  c = ' ' || c = '\t' || c = '\n' || c = '\x0b' || c = '\x0c' || c = '\r' ||
  c = '\u0085' || c = '\u00a0' || c = '\u1680' ||
  ('\u2000' ≤ c && c ≤ '\u200a') ||
  c = '\u2028' || c = '\u2029' || c = '\u202f' || c = '\u205f' || c = '\u3000'

/-- Length of the maximal run of `\s` characters at the head of the list. -/
def wsRun : List Char → Nat
  | [] => 0
  | c :: t => if isWs c then wsRun t + 1 else 0

/-- Does `$` (multi-line) match at offset `k` of `t`: end of haystack or
directly before a `'\n'`. -/
def eolAt (t : List Char) (k : Nat) : Bool :=
  match t.drop k with
  | [] => true
  | c :: _ => c == '\n'

/-- Largest offset `k ≤ bound` of `t` at which `$` matches (the greedy
trailing `\s*$` backtracks from the longest white-space extent). -/
def lastEolIdx (t : List Char) : Nat → Option Nat
  | 0 => if eolAt t 0 then some 0 else none
  | b + 1 => if eolAt t (b + 1) then some (b + 1) else lastEolIdx t b

/-- The fixed literal inside the splice-marker pattern. -/
def markerLit : List Char := "paperx:sections".data

/-- The terminal-directive literal `\end\x7bdocument\x7d`. -/
def enddocLit : List Char := "\\end\x7bdocument\x7d".data

/-- Length of the match of `%\s*paperx:sections\s*$` at the head of `t`
(the `^` anchor is handled by the caller), `none` if there is no match.
The first `\s*` is forced to the whole white-space run (the literal starts
with the non-white `'p'`); the trailing `\s*$` takes the largest white-space
extent at which `$` holds. -/
def markerMatchLen : List Char → Option Nat
  | [] => none
  | c :: rest =>
    if c = '%' then
      let r1 := wsRun rest
      let t2 := rest.drop r1
      if markerLit.isPrefixOf t2 then
        let t3 := t2.drop markerLit.length
        match lastEolIdx t3 (wsRun t3) with
        | some k => some (1 + r1 + markerLit.length + k)
        | none => none
      else none
    else none

/-- Length of the match of `\\end\x7bdocument\x7d` at the head of `t`
(`^` handled by the caller). -/
def enddocMatchLen (t : List Char) : Option Nat :=
  if enddocLit.isPrefixOf t then some enddocLit.length else none

/-- Leftmost match of an anchored-at-`^` pattern: walk the haystack,
tracking the current offset `i` and whether `^` matches there (`ls`);
`f` returns the match length at a given suffix.  Mirrors
`Regex::find` for the two `(?m)^…` patterns above. -/
def findPat (f : List Char → Option Nat) : List Char → Nat → Bool → Option (Nat × Nat)
  | [], i, ls => if ls then (f []).map (fun len => (i, len)) else none
  | c :: rest, i, ls =>
    match (if ls then f (c :: rest) else none) with
    | some len => some (i, len)
    | none => findPat f rest (i + 1) (c == '\n')

/-- Number of positions at which the anchored pattern matches (used to state
"the marker line is present exactly once" and "exactly one terminal
directive"). -/
def countPat (f : List Char → Option Nat) : List Char → Bool → Nat
  | [], ls => if ls && (f []).isSome then 1 else 0
  | c :: rest, ls =>
    (if ls && (f (c :: rest)).isSome then 1 else 0) + countPat f rest (c == '\n')

/-- Leftmost match of the splice-marker pattern `(?m)^%\s*paperx:sections\s*$`. -/
def findMarker (s : List Char) : Option (Nat × Nat) := findPat markerMatchLen s 0 true

/-- Leftmost match of the terminal pattern `(?m)^\\end\x7bdocument\x7d`. -/
def findEnddoc (s : List Char) : Option (Nat × Nat) := findPat enddocMatchLen s 0 true

/-- Number of splice-marker matches in the document. -/
def markerCount (s : List Char) : Nat := countPat markerMatchLen s true

/-- Number of terminal-directive matches in the document. -/
def enddocCount (s : List Char) : Nat := countPat enddocMatchLen s true

/-- Model of `Regex::replace`: splice `repl` over the leftmost match, if any;
with no match the haystack is returned unchanged. -/
def replaceFirst (s : List Char) (m : Option (Nat × Nat)) (repl : List Char) : List Char :=
  match m with
  | some (i, len) => s.take i ++ repl ++ s.drop (i + len)
  | none => s

/-! ## `cmd_add_section` (src/main.rs lines 272-292) -/

/-- The `include_line` of `cmd_add_section` (line 281):
`"% paperx:include\n\\input\x7bsections/<name>.tex\x7d\n"`.
(The model takes `file_name()` of `tex/sections/<name>.tex` to be
`<name>.tex`, i.e. names without path separators.) -/
def includeLine (name : List Char) : List Char :=
  "% paperx:include\n\\input\x7bsections/".data ++ name ++ ".tex\x7d\n".data

/-- Replacement text used on the marker branch (line 284):
`format!("% paperx:sections\n{include_line}")`. -/
def markerRepl (name : List Char) : List Char :=
  "% paperx:sections\n".data ++ includeLine name

/-- Replacement text used on the fallback branch (line 287):
`format!("{include_line}\n\\end\x7bdocument\x7d")`. -/
def enddocRepl (name : List Char) : List Char :=
  includeLine name ++ "\n".data ++ enddocLit

/-- The text transformation of `cmd_add_section` on `main.tex`
(lines 282-288): if the marker pattern matches, replace its leftmost match
by the marker followed by the include line; otherwise replace the leftmost
match of the terminal pattern (a no-op when that pattern does not match
either).  Faithful for names without `'$'` (a `'$'` in the replacement
string would trigger the `regex` crate's capture-group expansion, which is
outside this model). -/
def spliceSection (name doc : List Char) : List Char :=
  if (findMarker doc).isSome then
    replaceFirst doc (findMarker doc) (markerRepl name)
  else
    replaceFirst doc (findEnddoc doc) (enddocRepl name)

/-- Model of `titleize` (lines 352-363): split on `'-'`, `'_'`, `' '`, capitalize
each part, join with single spaces (ASCII capitalization). -/
def titleize (s : List Char) : List Char :=
  List.intercalate [' ']
    ((s.splitOnP (fun c => c = '-' || c = '_' || c = ' ')).map
      (fun w => match w with
        | [] => []
        | c :: t => c.toUpper :: t))

/-- Content written to the new fragment `tex/sections/<name>.tex`
(line 276). -/
def sectionBody (name : List Char) : List Char :=
  "% Section: ".data ++ name ++ "\n\\section\x7b".data ++ titleize name ++
    "\x7d\nWrite here.\n".data

/-- The filesystem state touched by `cmd_add_section`: the fragment files
under `tex/sections/` (keyed by section name) and the content of
`tex/main.tex` (`none` when the file cannot be read). -/
structure SectionFs where
  sectionFiles : List (List Char × List Char)
  mainTex : Option (List Char)
deriving DecidableEq

/-- Errors surfaced by `cmd_add_section`. -/
inductive AddErr where
  | alreadyExists
  | readMainFailed
deriving DecidableEq

/-- Model of `cmd_add_section` (lines 272-292) as a state transformer:
1. if `tex/sections/<name>.tex` exists, fail with the already-exists error
   (line 274) touching nothing;
2. write the new fragment (line 276);
3. read `tex/main.tex` (line 280) — on failure the error propagates with
   the fragment already written;
4. splice the include line into the document and write it back
   (lines 282-289), reporting success. -/
def cmd_add_section (name : List Char) (fs : SectionFs) :
    Except AddErr Unit × SectionFs :=
  if (fs.sectionFiles.lookup name).isSome then
    (Except.error AddErr.alreadyExists, fs)
  else
    let fs1 : SectionFs :=
      { fs with sectionFiles := (name, sectionBody name) :: fs.sectionFiles }
    match fs1.mainTex with
    | none => (Except.error AddErr.readMainFailed, fs1)
    | some doc =>
      (Except.ok (), { fs1 with mainTex := some (spliceSection name doc) })

/-! ## `pick_engine` (src/main.rs lines 315-325) -/

/-- The four engine preferences (`enum EnginePref`, line 104). -/
inductive EnginePref where
  | tectonic
  | latexmk
  | pdflatex
  | lualatex
deriving DecidableEq

/-- Executable name of a preference (the first element of its probe list). -/
def prefName : EnginePref → List Char
  | .tectonic => "tectonic".data
  | .latexmk => "latexmk".data
  | .pdflatex => "pdflatex".data
  | .lualatex => "lualatex".data

/-- The probe order built by `pick_engine`'s `match` (lines 317-322),
verbatim from the source. -/
def engineOrder : EnginePref → List (List Char)
  | .tectonic => ["tectonic".data, "latexmk".data, "pdflatex".data, "lualatex".data]
  | .latexmk => ["latexmk".data, "tectonic".data, "pdflatex".data, "lualatex".data]
  | .pdflatex => ["pdflatex".data, "latexmk".data, "tectonic".data, "lualatex".data]
  | .lualatex => ["lualatex".data, "latexmk".data, "tectonic".data, "pdflatex".data]

/-- Error taxonomy of the build path. -/
inductive BuildErr where
  | engineNotFound
  | configReadFailed
  | mainTexNotFound
  | unknownEngine
  | execFailed
  | artifactNotFound
deriving DecidableEq

/-- Model of `pick_engine` (lines 315-325): probe the candidates in order
(`which(e).is_ok()` modelled by the availability predicate `avail`) and
return the first present one; otherwise the engine-not-found error. -/
def pick_engine (pref : EnginePref) (avail : List Char → Bool) :
    Except BuildErr (List Char) :=
  match (engineOrder pref).find? avail with
  | some e => Except.ok e
  | none => Except.error BuildErr.engineNotFound

/-! ## `cmd_build` and `guess_pdf_path` (src/main.rs lines 191-235, 327-337) -/

/-- A path, as its list of components (`Path::new(outdir).join(name)` is
`[outdir, name]`; `walkdir` paths extend the root componentwise). -/
abbrev FsPath := List (List Char)

/-- A node of the output-directory tree. -/
inductive FEntry where
  | file (name : List Char)
  | dir (name : List Char) (children : List FEntry)

/-- Name of a tree node. -/
def FEntry.name : FEntry → List Char
  | .file n => n
  | .dir n _ => n

/-- Preorder traversal of a directory's children, as `WalkDir` yields them
(each directory before its contents, children in list order); entries are
`(path, is_directory)`. -/
def walkList (base : FsPath) : List FEntry → List (FsPath × Bool)
  | [] => []
  | .file n :: rest => (base ++ [n], false) :: walkList base rest
  | .dir n cs :: rest =>
    (base ++ [n], true) :: (walkList (base ++ [n]) cs ++ walkList base rest)

/-- Model of `Path::extension` of a file name: the part after the last `'.'`, and
`none` when there is no `'.'` or the only `'.'` is the leading one. -/
def rustExtension (f : List Char) : Option (List Char) :=
  let e := (f.reverse.takeWhile (fun c => ¬ c = '.')).reverse
  if e.length = f.length then none
  else if e.length + 1 = f.length then none
  else some e

/-- The extension test of `guess_pdf_path` (line 332):
`e.path().extension().map(|x| x == "pdf").unwrap_or(false)`. -/
def hasPdfExt (p : FsPath) : Bool :=
  match p.getLast? with
  | some f => rustExtension f == some "pdf".data
  | none => false

/-- Does the output directory contain a top-level entry named `n`
(`Path::new(outdir).join(n).exists()`, true for files and directories). -/
def hasTop (children : List FEntry) (n : List Char) : Bool :=
  children.any (fun e => e.name == n)

/-- The full `WalkDir::new(outdir)` entry list: the root itself first,
then its contents in preorder. -/
def walkAll (outdir : List Char) (children : List FEntry) : List (FsPath × Bool) :=
  ([outdir], true) :: walkList [outdir] children

/-- First entry of the recursive scan whose path has the `pdf` extension. -/
def firstPdfEntry (outdir : List Char) (children : List FEntry) : Option FsPath :=
  ((walkAll outdir children).find? (fun e => hasPdfExt e.1)).map (·.1)

/-- Model of `guess_pdf_path` (lines 327-337): prefer `outdir/main.pdf`, else the
first `pdf`-extension entry in traversal order, else failure. -/
def guess_pdf_path (outdir : List Char) (children : List FEntry) :
    Except BuildErr FsPath :=
  if hasTop children "main.pdf".data then Except.ok [outdir, "main.pdf".data]
  else
    match firstPdfEntry outdir children with
    | some p => Except.ok p
    | none => Except.error BuildErr.artifactNotFound

/-- A spawned subprocess invocation (`std::process::Command`). -/
structure SpawnedCmd where
  program : List Char
  args : List (List Char)

/-- The four invocation shapes of `cmd_build`'s `match` (lines 202-227);
`none` models the `other => Err(anyhow!("Unknown engine"))` arm. -/
def mkCmd (eng mainTex outdir : List Char) : Option SpawnedCmd :=
  if eng = "tectonic".data then
    some ⟨"tectonic".data,
      ["-X".data, "compile".data, mainTex, "--outdir".data, outdir,
        "--keep-logs".data, "--keep-intermediates".data]⟩
  else if eng = "latexmk".data then
    some ⟨"latexmk".data,
      ["-pdf".data, "-interaction=nonstopmode".data,
        "-output-directory=".data ++ outdir, mainTex]⟩
  else if eng = "pdflatex".data then
    some ⟨"pdflatex".data, ["-output-directory=".data ++ outdir, mainTex]⟩
  else if eng = "lualatex".data then
    some ⟨"lualatex".data, ["-output-directory=".data ++ outdir, mainTex]⟩
  else none

/-- The environment a build invocation runs against: the parsed config
(`none` when `paperx.toml` cannot be read or parsed; only `main_tex` is
consumed by `cmd_build`), whether the entry file exists, which executables
are present, the exit status of the spawned engine, and the contents of
the output directory after the engine has run. -/
structure BuildEnv where
  cfgMainTex : Option (List Char)
  mainExists : Bool
  avail : List Char → Bool
  runOk : Bool
  outTree : List FEntry

/-- Model of `cmd_build` (lines 191-235): read the config, check the entry file,
resolve the engine, spawn exactly one subprocess (recorded in the second
component), check its exit status, then locate the artifact: prefer
`outdir/main.pdf` (line 200 — note the fixed name `main.pdf`), falling
back to `guess_pdf_path`.  The `create_dir_all` on line 196 is modelled as
always succeeding (per the spec it is never an error). -/
def cmd_build (pref : EnginePref) (outdir : List Char) (env : BuildEnv) :
    Except BuildErr FsPath × List SpawnedCmd :=
  match env.cfgMainTex with
  | none => (Except.error BuildErr.configReadFailed, [])
  | some mainTex =>
    if ¬ env.mainExists then (Except.error BuildErr.mainTexNotFound, [])
    else
      match pick_engine pref env.avail with
      | Except.error e => (Except.error e, [])
      | Except.ok eng =>
        match mkCmd eng mainTex outdir with
        | none => (Except.error BuildErr.unknownEngine, [])
        | some c =>
          if ¬ env.runOk then (Except.error BuildErr.execFailed, [c])
          else if hasTop env.outTree "main.pdf".data then
            (Except.ok [outdir, "main.pdf".data], [c])
          else
            match guess_pdf_path outdir env.outTree with
            | Except.ok p => (Except.ok p, [c])
            | Except.error e => (Except.error e, [c])

/-- The conventional artifact path as the specification words it:
`outDir/<entryStem>.pdf` where `<entryStem>` is the file stem of the
configured entry file.  (Spec-side definition, for comparison with the
source's fixed `outdir/main.pdf`.) -/
def specConventionalPath (mainTex outdir : List Char) : FsPath :=
  let f := match (mainTex.splitOnP (fun c => c = '/')).getLast? with
    | some f => f
    | none => []
  let stem := match rustExtension f with
    | some e => f.take (f.length - e.length - 1)
    | none => f
  [outdir, stem ++ ".pdf".data]

/-! ## `cmd_watch` (src/main.rs lines 237-259)

Two views of the notification callback:

* `watchStep`/`runEvents`: the debounce decision for events handled one
  after another (the sequential behaviour of lines 246-254, with times in
  milliseconds as integers; `last.elapsed() > debounce` is `t - last > 400`).
* an interleaving machine (below) exposing the lock structure of the
  callback: the elapsed-time check happens under one `lock()` (line 246),
  the guard is dropped (line 248), and the timestamp write re-acquires the
  lock (lines 249-251) — two separate critical sections.
-/

/-- The debounce interval: `Duration::from_millis(400)` (line 239). -/
def debounceMs : Int := 400

/-- The initial value of the shared timestamp:
`Instant::now() - Duration::from_secs(10)` (line 238), 10 s before the
session start (time 0). -/
def watchInit : Int := -10000

/-- One notification at time `t` against the last-trigger timestamp
`last`: trigger (and write `t`) iff `t - last > 400`, else discard with no
state change (lines 246-254). -/
def watchStep (last t : Int) : Int × Bool :=
  if debounceMs < t - last then (t, true) else (last, false)

/-- Run a sequence of event times through `watchStep`; returns the final
timestamp and the times of the accepted (rebuild-triggering) events. -/
def runEvents (last : Int) : List Int → Int × List Int
  | [] => (last, [])
  | t :: ts =>
    let s := watchStep last t
    let r := runEvents s.1 ts
    (r.1, if s.2 then t :: r.2 else r.2)

/-- State of the two-notification interleaving machine: who holds the
mutex, the shared timestamp, each handler's program counter, and whether
each handler has triggered a rebuild.  Handlers are `false` (A, event time
`tA`) and `true` (B, event time `tB`). -/
structure WatchMachine where
  lock : Option Bool
  last : Int
  pcA : Nat
  pcB : Nat
  firedA : Bool
  firedB : Bool
deriving DecidableEq

/-- Initial machine state. -/
def watchMachineInit : WatchMachine :=
  ⟨none, watchInit, 0, 0, false, false⟩

/-- One atomic step of handler `who` (event time `t`), following the
callback body:
pc 0: acquire the lock (line 246; blocks — models as a no-op — while held);
pc 1: read the timestamp, decide `t - last > 400`, and release the guard
      (the `drop` on line 248, or the end of the `if let` scope when the
      check fails);
pc 2: re-acquire the lock (line 249);
pc 3: write `last := t` and release (lines 250-251), marking the rebuild
      trigger (lines 252-253);
pc 4: done. -/
def watchHandlerStep (who : Bool) (t : Int) (st : WatchMachine) : WatchMachine :=
  let pc := if who then st.pcB else st.pcA
  let setPc := fun (st' : WatchMachine) (n : Nat) =>
    if who then { st' with pcB := n } else { st' with pcA := n }
  match pc with
  | 0 => if st.lock = none then setPc { st with lock := some who } 1 else st
  | 1 =>
    if debounceMs < t - st.last then setPc { st with lock := none } 2
    else setPc { st with lock := none } 4
  | 2 => if st.lock = none then setPc { st with lock := some who } 3 else st
  | 3 =>
    if who then { st with last := t, lock := none, pcB := 4, firedB := true }
    else { st with last := t, lock := none, pcA := 4, firedA := true }
  | _ => st

/-- Run the machine under an explicit schedule (list of handler choices). -/
def runSched (tA tB : Int) (sched : List Bool) : WatchMachine :=
  sched.foldl (fun st who => watchHandlerStep who (if who then tB else tA) st)
    watchMachineInit

/-- Reference semantics the specification asserts: the check-then-update
sequence of each delivery runs as one critical section, i.e. the two
deliveries execute atomically one after the other. -/
def runAtomicPair (tA tB : Int) : (Int × Bool) × Bool :=
  let a := watchStep watchInit tA
  let b := watchStep a.1 tB
  ((b.1, a.2), b.2)

/-! ## Auxiliary notions used in the claim statements -/

/-- Is offset `j` of `a` a line start, where `ls` says whether offset `0`
is one (i.e. whether `a` is scanned starting at a line start)? -/
def lsAt (a : List Char) (ls : Bool) (j : Nat) : Bool :=
  if j = 0 then ls else a[j - 1]? == some '\n'

/-- Does `^` match at offset `j` of the whole document `s`? -/
def lineStartAt (s : List Char) (j : Nat) : Bool := lsAt s true j

/-- Line-start status directly after scanning `a`, having entered it with
status `ls`. -/
def lsEnd (a : List Char) (ls : Bool) : Bool :=
  match a.getLast? with
  | none => ls
  | some c => c == '\n'

/-- Does the list start with a non-white-space character? -/
def headNonWs : List Char → Bool
  | [] => false
  | c :: _ => !isWs c

/-- The marker line without its newline (17 characters). -/
def markerLine : List Char := "% paperx:sections".data

/-- Rest of `markerLine` after its `'%'`. -/
def markerTail : List Char := " paperx:sections".data

/-- First line of the generated include text. -/
def incHead : List Char := "% paperx:include".data

/-- Start of the `\input` line of the generated include text. -/
def incInput : List Char := "\\input\x7bsections/".data

/-- End of the `\input` line (before its newline). -/
def incTail : List Char := ".tex\x7d".data

/-- Rest of `enddocLit` after its `'\\'`. -/
def enddocTail : List Char := "end\x7bdocument\x7d".data

/-- The preference-independent relative order of the three fallback
candidates, read off the four arms of `pick_engine` (lines 318-321):
restricting this single list to the non-preferred candidates yields each
arm's tail. -/
def fixedFallback : List (List Char) :=
  ["latexmk".data, "tectonic".data, "pdflatex".data, "lualatex".data]

/-- The four candidate executables. -/
def allEngines : List (List Char) :=
  ["tectonic".data, "latexmk".data, "pdflatex".data, "lualatex".data]

/-! ## Concrete fixtures used by counterexamples and witnesses -/

/-- A `main.tex` with neither the marker nor a terminal directive. -/
def docNoAnchors : List Char := "hello\nworld\n".data

/-- Filesystem state: no fragments yet, `main.tex` readable with
`docNoAnchors`. -/
def fsNoAnchors : SectionFs := ⟨[], some docNoAnchors⟩

/-- A document containing the marker line twice. -/
def docTwoMarkers : List Char := "% paperx:sections\nX\n% paperx:sections\n".data

/-- A document with no marker and two terminal directives. -/
def docTwoEnddocs : List Char :=
  "A\n\\end\x7bdocument\x7d\n\\end\x7bdocument\x7d\n".data

/-- Build environment for the C2 counterexample: entry file
`tex/paper.tex` (stem `paper`), `tectonic` present, build succeeded, and
the output directory holding `alpha.pdf` before `paper.pdf` in traversal
order. -/
def envStem : BuildEnv :=
  ⟨some "tex/paper.tex".data, true, fun e => e == "tectonic".data, true,
    [FEntry.file "alpha.pdf".data, FEntry.file "paper.pdf".data]⟩

/-- Build environment for the C2 witness: no `main.pdf`, one `pdf` deeper
in the tree. -/
def envScan : BuildEnv :=
  ⟨some "tex/main.tex".data, true, fun e => e == "tectonic".data, true,
    [FEntry.file "main.log".data,
      FEntry.dir "sub".data [FEntry.file "main.pdf".data]]⟩

/-- Build environment for the C4 witness: nothing installed. -/
def envNothing : BuildEnv :=
  ⟨some "tex/main.tex".data, true, fun _ => false, true, []⟩

/-- The schedule interleaving two notification deliveries so that both
pass the elapsed-time check before either writes the timestamp:
A acquires+checks, B acquires+checks, A writes, B writes. -/
def racySched : List Bool :=
  [false, false, true, true, false, false, true, true]

/-! ## Helper lemmas -/

lemma countPat_cons (f : List Char → Option Nat) (c : Char) (t : List Char) (ls : Bool) :
    countPat f (c :: t) ls =
      (if ls && (f (c :: t)).isSome then 1 else 0) + countPat f t (c == '\n') := rfl

lemma countPat_nil (f : List Char → Option Nat) (ls : Bool) :
    countPat f [] ls = if ls && (f []).isSome then 1 else 0 := rfl

lemma wsRun_cons (c : Char) (t : List Char) :
    wsRun (c :: t) = if isWs c then wsRun t + 1 else 0 := rfl

lemma markerMatchLen_nil : markerMatchLen [] = none := rfl

lemma enddocMatchLen_nil : enddocMatchLen [] = none := by decide

lemma isWs_nl : isWs '\n' = true := by decide

lemma lsAt_zero (a : List Char) (ls : Bool) : lsAt a ls 0 = ls := rfl

lemma lsAt_succ (a : List Char) (ls : Bool) (j : Nat) :
    lsAt a ls (j + 1) = (a[j]? == some '\n') := rfl

lemma lsAt_cons_succ (c : Char) (a : List Char) (ls : Bool) (j : Nat) :
    lsAt (c :: a) ls (j + 1) = lsAt a (c == '\n') j := by
  cases j with
  | zero => simp [lsAt]
  | succ j => simp [lsAt]

lemma lsAt_append_left (a b : List Char) (ls : Bool) (j : Nat) (hj : j ≤ a.length) :
    lsAt (a ++ b) ls j = lsAt a ls j := by
  cases j with
  | zero => rfl
  | succ j =>
    rw [lsAt_succ, lsAt_succ, List.getElem?_append_left (by omega)]

lemma nil_isPrefixOf (l : List Char) : List.isPrefixOf [] l = true := by
  cases l <;> rfl

lemma lsEnd_cons (c : Char) (a : List Char) (ls : Bool) :
    lsEnd (c :: a) ls = lsEnd a (c == '\n') := by
  cases a with
  | nil => simp [lsEnd]
  | cons d t =>
    unfold lsEnd
    rw [List.getLast?_cons_cons]
    cases hg : (d :: t).getLast? with
    | none =>
      exfalso
      rw [List.getLast?_eq_getElem?] at hg
      simp at hg
    | some e => rfl

lemma lsEnd_true (a : List Char) (h : a = [] ∨ a.getLast? = some '\n') :
    lsEnd a true = true := by
  rcases h with h | h
  · subst h; rfl
  · simp [lsEnd, h]

lemma lsEnd_false (a : List Char) (ha : '\n' ∉ a) : lsEnd a false = false := by
  unfold lsEnd
  cases h : a.getLast? with
  | none => rfl
  | some c =>
    have hc : c ∈ a := List.mem_of_getLast?_eq_some h
    have : ¬ c = '\n' := fun hcn => ha (hcn ▸ hc)
    simp [this]

lemma lineStartAt_boundary (a b : List Char)
    (h : a = [] ∨ a.getLast? = some '\n') :
    lineStartAt (a ++ b) a.length = true := by
  rcases h with h | h
  · subst h; rfl
  · have hne : a ≠ [] := by rintro rfl; simp at h
    have hlen : 0 < a.length := List.length_pos.mpr hne
    unfold lineStartAt lsAt
    rw [if_neg (by omega), List.getElem?_append_left (by omega)]
    rw [List.getLast?_eq_getElem?] at h
    simp [h]

/-! ### Stopper lemmas: a match computation that runs into a non-white,
non-matching character cannot see past it -/

lemma wsRun_append_stop (d : Char) (hd : isWs d = false) (a b b' : List Char) :
    wsRun (a ++ d :: b) = wsRun (a ++ d :: b') := by
  induction a with
  | nil => simp [wsRun_cons, hd]
  | cons c a ih => simp only [List.cons_append, wsRun_cons, ih]

lemma wsRun_append_le (d : Char) (hd : isWs d = false) (a b : List Char) :
    wsRun (a ++ d :: b) ≤ a.length := by
  induction a with
  | nil => simp [wsRun_cons, hd]
  | cons c a ih =>
    simp only [List.cons_append, wsRun_cons, List.length_cons]
    split
    · omega
    · omega

lemma isPrefixOf_stop (p : List Char) (d : Char) (hd : d ∉ p) (a b b' : List Char) :
    p.isPrefixOf (a ++ d :: b) = p.isPrefixOf (a ++ d :: b') := by
  induction p generalizing a with
  | nil => simp [nil_isPrefixOf]
  | cons x p ih =>
    cases a with
    | nil =>
      have hx : (x == d) = false := by
        simp only [beq_eq_false_iff_ne, ne_eq]
        rintro rfl; exact hd (List.mem_cons_self x p)
      simp [List.isPrefixOf, hx]
    | cons c a =>
      simp only [List.cons_append, List.isPrefixOf, List.append_eq]
      rw [ih (fun hm => hd (List.mem_cons_of_mem x hm)) a]

lemma isPrefixOf_stop_le (p : List Char) (d : Char) (hd : d ∉ p) (a b : List Char)
    (h : p.isPrefixOf (a ++ d :: b) = true) : p.length ≤ a.length := by
  induction p generalizing a with
  | nil => simp
  | cons x p ih =>
    cases a with
    | nil =>
      exfalso
      have hx : (x == d) = false := by
        simp only [beq_eq_false_iff_ne, ne_eq]
        rintro rfl; exact hd (List.mem_cons_self x p)
      simp [List.isPrefixOf, hx] at h
    | cons c a =>
      simp only [List.cons_append, List.isPrefixOf, Bool.and_eq_true] at h
      have := ih (fun hm => hd (List.mem_cons_of_mem x hm)) a h.2
      simp only [List.length_cons]
      omega

lemma isPrefixOf_of_le (p a b : List Char) (hl : p.length ≤ a.length) :
    p.isPrefixOf (a ++ b) = p.isPrefixOf a := by
  induction p generalizing a with
  | nil => simp [nil_isPrefixOf]
  | cons x p ih =>
    cases a with
    | nil => simp at hl
    | cons c a =>
      simp only [List.cons_append, List.isPrefixOf, List.append_eq]
      rw [ih a (by simpa using hl)]

lemma isPrefixOf_append_ext (p a b : List Char) (h : p.isPrefixOf a = true) :
    p.isPrefixOf (a ++ b) = true := by
  rw [List.isPrefixOf_iff_prefix] at h ⊢
  exact h.trans (List.prefix_append a b)

lemma eolAt_stop (d : Char) (hd : (d == '\n') = false) (a b b' : List Char)
    (k : Nat) (hk : k ≤ a.length) :
    eolAt (a ++ d :: b) k = eolAt (a ++ d :: b') k := by
  unfold eolAt
  rcases Nat.lt_or_ge k a.length with hlt | hge
  · rw [List.drop_append_of_le_length (by omega), List.drop_append_of_le_length (by omega)]
    cases hcut : a.drop k with
    | nil =>
      exfalso
      rw [List.drop_eq_nil_iff] at hcut
      omega
    | cons c t => simp
  · have hk' : k = a.length := by omega
    subst hk'
    rw [List.drop_left, List.drop_left]

lemma lastEolIdx_stop (d : Char) (hd : (d == '\n') = false) (a b b' : List Char) :
    ∀ m ≤ a.length, lastEolIdx (a ++ d :: b) m = lastEolIdx (a ++ d :: b') m := by
  intro m
  induction m with
  | zero =>
    intro hm
    unfold lastEolIdx
    rw [eolAt_stop d hd a b b' 0 (by omega)]
  | succ m ih =>
    intro hm
    unfold lastEolIdx
    rw [eolAt_stop d hd a b b' (m + 1) hm, ih (by omega)]

lemma markerMatchLen_stop (u : List Char) (hu : u ≠ []) (b b' : List Char) :
    markerMatchLen (u ++ '%' :: b) = markerMatchLen (u ++ '%' :: b') := by
  cases u with
  | nil => exact absurd rfl hu
  | cons c u =>
    simp only [List.cons_append, markerMatchLen]
    by_cases hc : c = '%'
    · simp only [if_pos hc]
      have hws : isWs '%' = false := by decide
      have hnm : ('%' : Char) ∉ markerLit := by decide
      have hr : wsRun (u ++ '%' :: b') = wsRun (u ++ '%' :: b) :=
        (wsRun_append_stop '%' hws u b b').symm
      have hrle : wsRun (u ++ '%' :: b) ≤ u.length := wsRun_append_le '%' hws u b
      rw [hr]
      rw [List.drop_append_of_le_length hrle, List.drop_append_of_le_length hrle]
      have hp : markerLit.isPrefixOf (u.drop (wsRun (u ++ '%' :: b)) ++ '%' :: b') =
          markerLit.isPrefixOf (u.drop (wsRun (u ++ '%' :: b)) ++ '%' :: b) :=
        (isPrefixOf_stop markerLit '%' hnm _ b b').symm
      rw [hp]
      by_cases hpp : markerLit.isPrefixOf (u.drop (wsRun (u ++ '%' :: b)) ++ '%' :: b) = true
      · simp only [if_pos hpp]
        have hlen : markerLit.length ≤ (u.drop (wsRun (u ++ '%' :: b))).length :=
          isPrefixOf_stop_le markerLit '%' hnm _ b hpp
        rw [List.drop_append_of_le_length hlen, List.drop_append_of_le_length hlen]
        have hr2 : wsRun ((u.drop (wsRun (u ++ '%' :: b))).drop markerLit.length ++ '%' :: b') =
            wsRun ((u.drop (wsRun (u ++ '%' :: b))).drop markerLit.length ++ '%' :: b) :=
          (wsRun_append_stop '%' hws _ b b').symm
        rw [hr2]
        have hr2le : wsRun ((u.drop (wsRun (u ++ '%' :: b))).drop markerLit.length ++ '%' :: b) ≤
            ((u.drop (wsRun (u ++ '%' :: b))).drop markerLit.length).length :=
          wsRun_append_le '%' hws _ b
        rw [lastEolIdx_stop '%' (by decide) _ b b' _ hr2le]
      · simp only [Bool.not_eq_true] at hpp
        simp only [hpp]
        rw [if_neg (by simp), if_neg (by simp)]
    · simp only [if_neg hc]

lemma enddocMatchLen_none_transfer (u b b' : List Char)
    (h : enddocMatchLen (u ++ b) = none) :
    enddocMatchLen (u ++ '%' :: b') = none := by
  unfold enddocMatchLen at h ⊢
  by_cases hp : enddocLit.isPrefixOf (u ++ '%' :: b') = true
  · exfalso
    have hnm : ('%' : Char) ∉ enddocLit := by decide
    have hlen : enddocLit.length ≤ u.length := isPrefixOf_stop_le enddocLit '%' hnm u b' hp
    have hu : enddocLit.isPrefixOf u = true := by
      rw [← isPrefixOf_of_le enddocLit u ('%' :: b') hlen]; exact hp
    rw [if_pos (isPrefixOf_append_ext enddocLit u b hu)] at h
    exact Option.some_ne_none _ h
  · simp only [Bool.not_eq_true] at hp
    simp [hp]

/-! ### Locating the leftmost match -/

lemma lsAt_drop_head (s : List Char) (i : Nat) (hi : i < s.length) :
    (s[i] == '\n') = lsAt s true (i + 1) := by
  rw [lsAt_succ, List.getElem?_eq_getElem hi]
  rfl

lemma findPat_eq_some (f : List Char → Option Nat) (s : List Char) (p v : Nat)
    (hp : p ≤ s.length)
    (hmatch : f (s.drop p) = some v)
    (hls : lineStartAt s p = true)
    (hnone : ∀ j < p, lineStartAt s j = true → f (s.drop j) = none) :
    findPat f s 0 true = some (p, v) := by
  suffices h : ∀ n i, p - i = n → i ≤ p →
      findPat f (s.drop i) i (lsAt s true i) = some (p, v) by
    have h0 := h p 0 rfl (Nat.zero_le _)
    simpa [lsAt_zero] using h0
  intro n
  induction n with
  | zero =>
    intro i hn hip
    have hip' : i = p := by omega
    subst hip'
    have hls' : lsAt s true i = true := hls
    cases hd : s.drop i with
    | nil =>
      rw [hd] at hmatch
      simp [findPat, hls', hmatch]
    | cons c rest =>
      rw [hd] at hmatch
      simp [findPat, hls', hmatch]
  | succ n ih =>
    intro i hn hip
    have hiplt : i < p := by omega
    have hil : i < s.length := by omega
    have hd : s.drop i = s[i] :: s.drop (i + 1) := List.drop_eq_getElem_cons hil
    have hnone_i : (if lsAt s true i then f (s.drop i) else none) = none := by
      cases hls_i : lsAt s true i with
      | false => simp
      | true => simpa using hnone i hiplt hls_i
    rw [hd] at hnone_i
    rw [hd, findPat, hnone_i]
    rw [lsAt_drop_head s i hil]
    exact ih (i + 1) (by omega) (by omega)

lemma findPat_eq_none (f : List Char → Option Nat) (s : List Char)
    (hnil : f [] = none)
    (hnone : ∀ j ≤ s.length, lineStartAt s j = true → f (s.drop j) = none) :
    findPat f s 0 true = none := by
  suffices h : ∀ n i, s.length - i = n →
      findPat f (s.drop i) i (lsAt s true i) = none by
    have h0 := h s.length 0 rfl
    simpa [lsAt_zero] using h0
  intro n
  induction n with
  | zero =>
    intro i hn
    have hil : s.length ≤ i := by omega
    have hd : s.drop i = [] := by rw [List.drop_eq_nil_iff]; omega
    rw [hd, findPat]
    cases lsAt s true i <;> simp [hnil]
  | succ n ih =>
    intro i hn
    have hil : i < s.length := by omega
    have hd : s.drop i = s[i] :: s.drop (i + 1) := List.drop_eq_getElem_cons hil
    have hnone_i : (if lsAt s true i then f (s.drop i) else none) = none := by
      cases hls_i : lsAt s true i with
      | false => simp
      | true => simpa using hnone i (by omega) hls_i
    rw [hd] at hnone_i
    rw [hd, findPat, hnone_i]
    rw [lsAt_drop_head s i hil]
    exact ih (i + 1) (by omega)

/-! ### Counting matches segment by segment -/

lemma countPat_append_of_none (f : List Char → Option Nat) (a b : List Char) (ls : Bool)
    (h : ∀ j < a.length, lsAt a ls j = true → f (a.drop j ++ b) = none) :
    countPat f (a ++ b) ls = countPat f b (lsEnd a ls) := by
  induction a generalizing ls with
  | nil => simp [lsEnd]
  | cons c a ih =>
    rw [List.cons_append, countPat_cons]
    have h0 : (ls && (f (c :: (a ++ b))).isSome) = false := by
      cases hls : ls with
      | false => simp
      | true =>
        have := h 0 (by simp) (by simp [lsAt_zero, hls])
        simp only [List.drop_zero, List.cons_append] at this
        simp [this]
    rw [h0, if_neg (by simp)]
    rw [ih (c == '\n') (fun j hj hls => by
      have := h (j + 1) (by simpa using Nat.succ_lt_succ hj)
        (by rw [lsAt_cons_succ]; exact hls)
      simpa using this)]
    rw [lsEnd_cons]
    omega

lemma countPat_eq_zero (f : List Char → Option Nat) (t : List Char) (ls : Bool)
    (hnil : f [] = none)
    (h : ∀ j ≤ t.length, lsAt t ls j = true → f (t.drop j) = none) :
    countPat f t ls = 0 := by
  have happ := countPat_append_of_none f t [] ls (fun j hj hls => by
    rw [List.append_nil]; exact h j (by omega) hls)
  rw [List.append_nil] at happ
  rw [happ, countPat_nil, hnil]
  simp

lemma countPat_no_nl (f : List Char → Option Nat) (a b : List Char) (ha : '\n' ∉ a) :
    countPat f (a ++ b) false = countPat f b false := by
  rw [countPat_append_of_none f a b false (fun j hj hls => by
    exfalso
    cases j with
    | zero => simp [lsAt_zero] at hls
    | succ j =>
      rw [lsAt_succ] at hls
      have hnl : a[j]? = some '\n' := by
        cases hg : a[j]? with
        | none => rw [hg] at hls; simp at hls
        | some e =>
          rw [hg] at hls
          simp only [beq_iff_eq, Option.some.injEq] at hls
          simp [hls]
      rw [List.getElem?_eq_some] at hnl
      obtain ⟨hjl, hje⟩ := hnl
      exact ha (hje ▸ List.getElem_mem hjl))]
  rw [lsEnd_false a ha]

/-! ### Concrete-segment match and count lemmas -/

lemma not_nl_of_not_ws (c : Char) (hc : isWs c = false) : (c == '\n') = false := by
  cases hq : c == '\n' with
  | false => rfl
  | true =>
    exfalso
    have hcc : c = '\n' := by simpa using hq
    rw [hcc, isWs_nl] at hc
    simp at hc

lemma markerMatchLen_marker (y : List Char) (hy : headNonWs y = true) :
    markerMatchLen (markerLine ++ '\n' :: y) = some 17 := by
  cases y with
  | nil => simp [headNonWs] at hy
  | cons c y =>
    have hc : isWs c = false := by simpa [headNonWs] using hy
    have hcnl : (c == '\n') = false := not_nl_of_not_ws c hc
    show markerMatchLen ('%' :: (markerTail ++ '\n' :: c :: y)) = some 17
    have h1 : wsRun (markerTail ++ '\n' :: c :: y) = 1 := by
      show wsRun (' ' :: (markerLit ++ '\n' :: c :: y)) = 1
      rw [wsRun_cons, if_pos (by decide)]
      show wsRun ('p' :: ("aperx:sections".data ++ '\n' :: c :: y)) + 1 = 1
      rw [wsRun_cons, if_neg (by decide)]
    simp only [markerMatchLen, if_pos]
    rw [h1]
    show (if markerLit.isPrefixOf ((markerTail ++ '\n' :: c :: y).drop 1) then
      match lastEolIdx (((markerTail ++ '\n' :: c :: y).drop 1).drop markerLit.length)
          (wsRun (((markerTail ++ '\n' :: c :: y).drop 1).drop markerLit.length)) with
      | some k => some (1 + 1 + markerLit.length + k)
      | none => none
      else none) = some 17
    have h2 : (markerTail ++ '\n' :: c :: y).drop 1 = markerLit ++ '\n' :: c :: y := rfl
    rw [h2]
    rw [isPrefixOf_append_ext markerLit markerLit _ (by decide), if_pos rfl]
    rw [List.drop_left]
    have h3 : wsRun ('\n' :: c :: y) = 1 := by
      rw [wsRun_cons, if_pos (by rw [isWs_nl]), wsRun_cons, if_neg (by rw [hc]; simp)]
    rw [h3]
    have h4 : lastEolIdx ('\n' :: c :: y) 1 = some 0 := by
      show lastEolIdx ('\n' :: c :: y) (0 + 1) = some 0
      rw [lastEolIdx]
      have he1 : eolAt ('\n' :: c :: y) (0 + 1) = false := by
        show eolAt ('\n' :: c :: y) 1 = false
        unfold eolAt
        simp [hcnl]
      rw [he1, if_neg (by simp), lastEolIdx, if_pos (by unfold eolAt; simp)]
    rw [h4]
    rfl



lemma lastEolIdx_exists (t : List Char) (h0 : eolAt t 0 = true) :
    ∀ b, ∃ k, lastEolIdx t b = some k ∧ k ≤ b ∧ eolAt t k = true := by
  intro b
  induction b with
  | zero => exact ⟨0, by simp only [lastEolIdx]; rw [if_pos h0], Nat.le_refl 0, h0⟩
  | succ b ih =>
    by_cases h : eolAt t (b + 1) = true
    · exact ⟨b + 1, by simp only [lastEolIdx]; rw [if_pos h], Nat.le_refl _, h⟩
    · obtain ⟨k, hk1, hk2, hk3⟩ := ih
      refine ⟨k, ?_, by omega, hk3⟩
      simp only [lastEolIdx]
      rw [if_neg h]
      exact hk1

lemma eolAt_zero_nl (post : List Char) : eolAt ('\n' :: post) 0 = true := rfl

/-- The marker pattern matches at the head of
`marker line ++ newline ++ post` for ARBITRARY `post`: the greedy trailing
`\s*$` consumes `k` further characters of white space, ending at a line
boundary (`eolAt`), so the match length is `17 + k`. -/
lemma markerMatchLen_marker_general (post : List Char) :
    ∃ k, markerMatchLen (markerLine ++ '\n' :: post) = some (17 + k) ∧
      eolAt ('\n' :: post) k = true ∧ k ≤ wsRun ('\n' :: post) := by
  obtain ⟨k, hk1, hk2, hk3⟩ :=
    lastEolIdx_exists ('\n' :: post) (eolAt_zero_nl post) (wsRun ('\n' :: post))
  refine ⟨k, ?_, hk3, hk2⟩
  show markerMatchLen ('%' :: (markerTail ++ '\n' :: post)) = some (17 + k)
  have h1 : wsRun (markerTail ++ '\n' :: post) = 1 := by
    show wsRun (' ' :: (markerLit ++ '\n' :: post)) = 1
    rw [wsRun_cons, if_pos (by decide)]
    show wsRun ('p' :: ("aperx:sections".data ++ '\n' :: post)) + 1 = 1
    rw [wsRun_cons, if_neg (by decide)]
  simp only [markerMatchLen, if_pos]
  rw [h1]
  show (if markerLit.isPrefixOf ((markerTail ++ '\n' :: post).drop 1) then
    match lastEolIdx (((markerTail ++ '\n' :: post).drop 1).drop markerLit.length)
        (wsRun (((markerTail ++ '\n' :: post).drop 1).drop markerLit.length)) with
    | some k => some (1 + 1 + markerLit.length + k)
    | none => none
    else none) = some (17 + k)
  have h2 : (markerTail ++ '\n' :: post).drop 1 = markerLit ++ '\n' :: post := rfl
  rw [h2]
  rw [isPrefixOf_append_ext markerLit markerLit _ (by decide), if_pos rfl]
  rw [List.drop_left]
  rw [hk1]
  rw [show markerLit.length = 15 from rfl]

lemma markerMatchLen_backslash (x : List Char) : markerMatchLen ('\\' :: x) = none := by
  simp [markerMatchLen]

lemma markerMatchLen_nl (x : List Char) : markerMatchLen ('\n' :: x) = none := by
  simp [markerMatchLen]

lemma markerMatchLen_incHead (x : List Char) : markerMatchLen (incHead ++ x) = none := by
  show markerMatchLen ('%' :: (' ' :: ("paperx:include".data ++ x))) = none
  have h1 : wsRun (' ' :: ("paperx:include".data ++ x)) = 1 := by
    rw [wsRun_cons, if_pos (by decide)]
    show wsRun ('p' :: ("aperx:include".data ++ x)) + 1 = 1
    rw [wsRun_cons, if_neg (by decide)]
  have h2 : markerLit.isPrefixOf ((' ' :: ("paperx:include".data ++ x)).drop 1) = false := by
    show markerLit.isPrefixOf ("paperx:include".data ++ x) = false
    show markerLit.isPrefixOf
      ('p' :: 'a' :: 'p' :: 'e' :: 'r' :: 'x' :: ':' :: 'i' :: ("nclude".data ++ x)) = false
    have hm : markerLit =
        'p' :: 'a' :: 'p' :: 'e' :: 'r' :: 'x' :: ':' :: 's' :: "ections".data := rfl
    rw [hm]
    simp [List.isPrefixOf]
  simp only [markerMatchLen, if_pos, h1, h2]
  rw [if_neg (by simp)]

lemma enddocMatchLen_percent (x : List Char) : enddocMatchLen ('%' :: x) = none := by
  unfold enddocMatchLen
  rw [if_neg]
  rw [show enddocLit = '\\' :: enddocTail from rfl]
  simp [List.isPrefixOf]

lemma enddocMatchLen_nl (x : List Char) : enddocMatchLen ('\n' :: x) = none := by
  unfold enddocMatchLen
  rw [if_neg]
  rw [show enddocLit = '\\' :: enddocTail from rfl]
  simp [List.isPrefixOf]

lemma enddocMatchLen_incInput (x : List Char) :
    enddocMatchLen (incInput ++ x) = none := by
  unfold enddocMatchLen
  rw [if_neg]
  rw [show enddocLit = '\\' :: 'e' :: "nd\x7bdocument\x7d".data from rfl,
    show incInput ++ x = '\\' :: 'i' :: ("nput\x7bsections/".data ++ x) from rfl]
  simp [List.isPrefixOf]

lemma enddocMatchLen_self (x : List Char) :
    enddocMatchLen (enddocLit ++ x) = some 14 := by
  unfold enddocMatchLen
  rw [if_pos (by rw [isPrefixOf_append_ext enddocLit enddocLit x (by decide)])]
  rfl

lemma markerMatchLen_enddocLit (x : List Char) :
    markerMatchLen (enddocLit ++ x) = none := by
  show markerMatchLen ('\\' :: (enddocTail ++ x)) = none
  exact markerMatchLen_backslash _



lemma markerCount_block (y : List Char)
    (hy : (markerMatchLen (markerLine ++ '\n' :: y)).isSome = true) :
    countPat markerMatchLen (markerLine ++ '\n' :: y) true =
      1 + countPat markerMatchLen y true := by
  rw [show markerLine ++ '\n' :: y = '%' :: (markerTail ++ '\n' :: y) from rfl]
  rw [countPat_cons]
  rw [show ('%' :: (markerTail ++ '\n' :: y)) = markerLine ++ '\n' :: y from rfl, hy]
  rw [show (('%' : Char) == '\n') = false from by decide]
  rw [countPat_no_nl markerMatchLen markerTail ('\n' :: y) (by decide)]
  rw [countPat_cons]
  rw [show (('\n' : Char) == '\n') = true from by decide]
  simp

lemma countPat_nl_cons (f : List Char → Option Nat) (z : List Char) (ls : Bool)
    (hf : f ('\n' :: z) = none) :
    countPat f ('\n' :: z) ls = countPat f z true := by
  rw [countPat_cons, hf]
  rw [show (('\n' : Char) == '\n') = true from by decide]
  simp

/-- A tail of the form `('\n' :: post).drop k` that begins at a line
boundary contributes no marker matches, given none of `post`'s line-start
suffixes matches. -/
lemma countPat_drop_zero (f : List Char → Option Nat) (post : List Char) (k : Nat)
    (hnil : f [] = none) (hnl : ∀ z, f ('\n' :: z) = none)
    (heol : eolAt ('\n' :: post) k = true)
    (hpostNone : ∀ j ≤ post.length, lsAt post true j = true → f (post.drop j) = none) :
    countPat f (('\n' :: post).drop k) true = 0 := by
  apply countPat_eq_zero f _ true hnil
  intro m hm hls
  cases m with
  | zero =>
    rw [List.drop_zero]
    cases htail : ('\n' :: post).drop k with
    | nil => exact hnil
    | cons c z =>
      have hc : c = '\n' := by
        unfold eolAt at heol
        rw [htail] at heol
        simpa using heol
      rw [hc]
      exact hnl z
  | succ m =>
    rw [List.drop_drop]
    obtain ⟨j, hj⟩ : ∃ j, k + (m + 1) = j + 1 := ⟨k + m, by omega⟩
    rw [hj, List.drop_succ_cons]
    by_cases hjl : j ≤ post.length
    · apply hpostNone j hjl
      rw [lsAt_succ, List.getElem?_drop] at hls
      cases hjz : j with
      | zero => rfl
      | succ i =>
        rw [lsAt_succ]
        have hkm : k + m = i + 1 := by omega
        rw [hkm] at hls
        rwa [List.getElem?_cons_succ] at hls
    · rw [List.drop_eq_nil_of_le (by omega)]
      exact hnil

lemma countPat_includeLine (f : List Char → Option Nat) (n y : List Char) (hn : '\n' ∉ n)
    (hf1 : f (incHead ++ ('\n' :: (incInput ++ (n ++ (incTail ++ '\n' :: y))))) = none)
    (hf2 : f (incInput ++ (n ++ (incTail ++ '\n' :: y))) = none) :
    countPat f (includeLine n ++ y) true = countPat f y true := by
  have hinc : includeLine n ++ y =
      incHead ++ ('\n' :: (incInput ++ (n ++ (incTail ++ '\n' :: y)))) := by
    simp only [includeLine, List.append_assoc]
    rfl
  rw [hinc]
  rw [show incHead ++ ('\n' :: (incInput ++ (n ++ (incTail ++ '\n' :: y)))) =
    '%' :: (" paperx:include".data ++ ('\n' :: (incInput ++ (n ++ (incTail ++ '\n' :: y)))))
    from rfl]
  rw [countPat_cons]
  rw [show ('%' :: (" paperx:include".data ++
      ('\n' :: (incInput ++ (n ++ (incTail ++ '\n' :: y)))))) =
    incHead ++ ('\n' :: (incInput ++ (n ++ (incTail ++ '\n' :: y)))) from rfl, hf1]
  rw [show (('%' : Char) == '\n') = false from by decide]
  rw [countPat_no_nl f " paperx:include".data _ (by decide)]
  rw [countPat_cons]
  rw [show (('\n' : Char) == '\n') = true from by decide]
  rw [show incInput ++ (n ++ (incTail ++ '\n' :: y)) =
    '\\' :: ("input\x7bsections/".data ++ (n ++ (incTail ++ '\n' :: y))) from rfl]
  rw [countPat_cons]
  rw [show ('\\' :: ("input\x7bsections/".data ++ (n ++ (incTail ++ '\n' :: y))))
    = incInput ++ (n ++ (incTail ++ '\n' :: y)) from rfl, hf2]
  rw [show (('\\' : Char) == '\n') = false from by decide]
  rw [show "input\x7bsections/".data ++ (n ++ (incTail ++ '\n' :: y)) =
    ("input\x7bsections/".data ++ (n ++ incTail)) ++ ('\n' :: y) from by
      simp [List.append_assoc]]
  rw [countPat_no_nl f ("input\x7bsections/".data ++ (n ++ incTail)) ('\n' :: y) (by
    intro hmem
    simp only [List.mem_append] at hmem
    rcases hmem with h | h | h
    · exact absurd h (by decide)
    · exact hn h
    · exact absurd h (by decide))]
  rw [countPat_cons]
  rw [show (('\n' : Char) == '\n') = true from by decide]
  simp

lemma enddocCount_block (y : List Char) :
    countPat enddocMatchLen (enddocLit ++ y) true =
      1 + countPat enddocMatchLen y false := by
  rw [show enddocLit ++ y = '\\' :: (enddocTail ++ y) from rfl]
  rw [countPat_cons]
  rw [show ('\\' :: (enddocTail ++ y)) = enddocLit ++ y from rfl, enddocMatchLen_self]
  rw [show (('\\' : Char) == '\n') = false from by decide]
  rw [countPat_no_nl enddocMatchLen enddocTail y (by decide)]
  simp

/-! ### A characterization of `List.find?` -/

lemma find?_eq_some_split (p : List Char → Bool) :
    ∀ (l : List (List Char)) (e : List Char),
      l.find? p = some e ↔
        ∃ l1 l2, l = l1 ++ e :: l2 ∧ p e = true ∧ ∀ x ∈ l1, p x = false := by
  intro l
  induction l with
  | nil =>
    intro e
    constructor
    · intro h; simp at h
    · rintro ⟨l1, l2, heq, -, -⟩
      exact absurd heq (by simp)
  | cons a l ih =>
    intro e
    rw [List.find?_cons]
    cases ha : p a with
    | true =>
      constructor
      · intro h
        have hae : a = e := by simpa using h
        exact ⟨[], l, by rw [hae]; rfl, by rw [← hae]; exact ha, by simp⟩
      · rintro ⟨l1, l2, heq, hpe, hall⟩
        cases l1 with
        | nil =>
          simp only [List.nil_append, List.cons.injEq] at heq
          simp [heq.1]
        | cons x l1 =>
          exfalso
          simp only [List.cons_append, List.cons.injEq] at heq
          have := hall x (List.mem_cons_self x l1)
          rw [← heq.1] at this
          rw [this] at ha
          exact Bool.false_ne_true ha
    | false =>
      rw [ih e]
      constructor
      · rintro ⟨l1, l2, heq, hpe, hall⟩
        refine ⟨a :: l1, l2, by rw [heq, List.cons_append], hpe, ?_⟩
        intro x hx
        rcases List.mem_cons.mp hx with rfl | hx
        · exact ha
        · exact hall x hx
      · rintro ⟨l1, l2, heq, hpe, hall⟩
        cases l1 with
        | nil =>
          exfalso
          simp only [List.nil_append, List.cons.injEq] at heq
          rw [heq.1] at ha
          rw [ha] at hpe
          exact Bool.false_ne_true hpe
        | cons x l1 =>
          simp only [List.cons_append, List.cons.injEq] at heq
          exact ⟨l1, l2, heq.2, hpe, fun z hz => hall z (heq.1 ▸ List.mem_cons_of_mem x hz)⟩

lemma pick_engine_mem (pref : EnginePref) (avail : List Char → Bool) (e : List Char)
    (h : pick_engine pref avail = Except.ok e) : e ∈ engineOrder pref := by
  unfold pick_engine at h
  cases hf : (engineOrder pref).find? avail with
  | none => rw [hf] at h; exact absurd h (by simp)
  | some x =>
    rw [hf] at h
    have hx : x = e := by simpa using h
    exact hx ▸ List.mem_of_find?_eq_some hf

lemma mkCmd_isSome_of_mem (e mainTex outdir : List Char) (pref : EnginePref)
    (h : e ∈ engineOrder pref) : (mkCmd e mainTex outdir).isSome = true := by
  have h4 : e = "tectonic".data ∨ e = "latexmk".data ∨
      e = "pdflatex".data ∨ e = "lualatex".data := by
    cases pref <;> simp [engineOrder] at h <;> tauto
  rcases h4 with rfl | rfl | rfl | rfl
  · rw [mkCmd, if_pos rfl]; rfl
  · rw [mkCmd, if_neg (by decide), if_pos rfl]; rfl
  · rw [mkCmd, if_neg (by decide), if_neg (by decide), if_pos rfl]; rfl
  · rw [mkCmd, if_neg (by decide), if_neg (by decide), if_neg (by decide), if_pos rfl]; rfl

/-! ## Claim theorems -/

/-- C3: for every preference, `pick_engine` probes an ordered list that
starts with the preferred candidate, contains all four candidates exactly
once (`Nodup` plus the membership equivalence), orders the remaining three
candidates by restricting the single preference-independent list
`fixedFallback`, and returns the first candidate whose executable is
present (the `find?` characterization). -/
theorem pick_engine_probe_order (pref : EnginePref) (avail : List Char → Bool) :
    (engineOrder pref).head? = some (prefName pref) ∧
    engineOrder pref =
      prefName pref :: fixedFallback.filter (fun e => ¬ e = prefName pref) ∧
    (engineOrder pref).Nodup ∧
    (∀ e, e ∈ engineOrder pref ↔ e ∈ allEngines) ∧
    (∀ e, pick_engine pref avail = Except.ok e ↔
      ∃ l1 l2, engineOrder pref = l1 ++ e :: l2 ∧ avail e = true ∧
        ∀ x ∈ l1, avail x = false) := by
  refine ⟨?_, ?_, ?_, ?_, ?_⟩
  · cases pref <;> rfl
  · cases pref <;> decide
  · cases pref <;> decide
  · intro e
    cases pref <;> simp [engineOrder, allEngines] <;> tauto
  · intro e
    unfold pick_engine
    cases hf : (engineOrder pref).find? avail with
    | none =>
      constructor
      · intro h; exact absurd h (by simp)
      · rintro ⟨l1, l2, heq, he, -⟩
        exfalso
        rw [List.find?_eq_none] at hf
        have hmem : e ∈ engineOrder pref := by
          rw [heq]; exact List.mem_append_right _ (List.mem_cons_self _ _)
        have hfe : ¬ avail e = true := by simpa using hf e hmem
        exact hfe he
    | some x =>
      constructor
      · intro h
        have hx : x = e := by simpa using h
        exact (find?_eq_some_split avail (engineOrder pref) e).mp (hx ▸ hf)
      · intro h
        have hsome := (find?_eq_some_split avail (engineOrder pref) e).mpr h
        rw [hf] at hsome
        injection hsome with hx
        rw [hx]

/-- C4: when none of the four candidate executables is present, resolution
fails with the engine-not-found error, and the build invocation fails (with
some error) having spawned no subprocess. -/
theorem resolve_none_no_spawn (pref : EnginePref) (outdir : List Char) (env : BuildEnv)
    (h : ∀ e ∈ allEngines, env.avail e = false) :
    pick_engine pref env.avail = Except.error BuildErr.engineNotFound ∧
    (cmd_build pref outdir env).2 = [] ∧
    (∃ err, (cmd_build pref outdir env).1 = Except.error err) := by
  have hp : pick_engine pref env.avail = Except.error BuildErr.engineNotFound := by
    unfold pick_engine
    have hf : (engineOrder pref).find? env.avail = none := by
      rw [List.find?_eq_none]
      intro x hx
      have hxa : x ∈ allEngines := by
        cases pref <;> simp [engineOrder, allEngines] at hx ⊢ <;> tauto
      simp [h x hxa]
    rw [hf]
  refine ⟨hp, ?_⟩
  unfold cmd_build
  cases hc : env.cfgMainTex with
  | none => exact ⟨rfl, ⟨_, rfl⟩⟩
  | some m =>
    cases hm : env.mainExists with
    | true =>
      dsimp only
      rw [if_neg (by simp), hp]
      exact ⟨rfl, ⟨_, rfl⟩⟩
    | false =>
      dsimp only
      rw [if_pos (by simp)]
      exact ⟨rfl, ⟨_, rfl⟩⟩

/-- C4 witness: with nothing installed, the tectonic-preferred build fails
with no subprocess spawned. -/
theorem resolve_none_no_spawn_witness :
    pick_engine EnginePref.tectonic envNothing.avail =
      Except.error BuildErr.engineNotFound ∧
    (cmd_build EnginePref.tectonic "build".data envNothing).2 = [] ∧
    (∃ err, (cmd_build EnginePref.tectonic "build".data envNothing).1 =
      Except.error err) :=
  resolve_none_no_spawn EnginePref.tectonic "build".data envNothing
    (fun e _ => rfl)

/-- C5: an event whose elapsed time since the last accepted trigger is
less than the 400 ms debounce interval is discarded with no rebuild and no
state mutation, and the synthetic sequence at t = 0, 100, 500 ms triggers
exactly at t = 0 and t = 500 (the t = 100 event is suppressed). -/
theorem watch_debounce_suppression :
    (∀ last t : Int, t - last < debounceMs → watchStep last t = (last, false)) ∧
    (runEvents watchInit [0, 100, 500]).2 = [0, 500] := by
  constructor
  · intro last t h
    unfold watchStep
    rw [if_neg (by omega)]
  · decide

/-- C5 witness: the t = 100 event (elapsed 100 ms < 400 ms) is discarded
with no state change. -/
theorem watch_debounce_suppression_witness :
    (100 : Int) - 0 < debounceMs ∧ watchStep 0 100 = (0, false) :=
  ⟨by decide, watch_debounce_suppression.1 0 100 (by decide)⟩

/-- C8: adding a section whose fragment file already exists fails with the
already-exists error and leaves the whole state — in particular the target
document — unmodified. -/
theorem add_section_collision (name : List Char) (fs : SectionFs)
    (h : (fs.sectionFiles.lookup name).isSome = true) :
    cmd_add_section name fs = (Except.error AddErr.alreadyExists, fs) := by
  unfold cmd_add_section
  rw [if_pos h]

/-- C8 witness. -/
theorem add_section_collision_witness :
    cmd_add_section "intro".data ⟨[("intro".data, [])], some docNoAnchors⟩ =
      (Except.error AddErr.alreadyExists,
        ⟨[("intro".data, [])], some docNoAnchors⟩) :=
  add_section_collision "intro".data ⟨[("intro".data, [])], some docNoAnchors⟩
    (by decide)

/-- C10: when the fragment does not exist yet but `tex/main.tex` cannot be
read, `cmd_add_section` returns an error even though the fragment file has
already been created and written — the operation is not atomic on this
error path. -/
theorem add_section_not_atomic (name : List Char) (fs : SectionFs)
    (h1 : fs.sectionFiles.lookup name = none) (h2 : fs.mainTex = none) :
    (cmd_add_section name fs).1 = Except.error AddErr.readMainFailed ∧
    ((cmd_add_section name fs).2).sectionFiles.lookup name =
      some (sectionBody name) := by
  unfold cmd_add_section
  rw [h1]
  simp only [Option.isSome_none, Bool.false_eq_true, if_false]
  simp only [h2]
  constructor
  · trivial
  · simp [List.lookup]

/-- C10 witness. -/
theorem add_section_not_atomic_witness :
    (cmd_add_section "intro".data ⟨[], none⟩).1 =
      Except.error AddErr.readMainFailed ∧
    ((cmd_add_section "intro".data ⟨[], none⟩).2).sectionFiles.lookup "intro".data =
      some (sectionBody "intro".data) :=
  add_section_not_atomic "intro".data ⟨[], none⟩ rfl rfl

/-- C1 (behaviour at the failing input): on a document containing neither
the marker nor a terminal directive, `cmd_add_section` REPORTS SUCCESS and
writes the document back unchanged — it does not fail with a
malformed-document error as the specification requires. -/
theorem add_section_malformed_reports_success :
    markerCount docNoAnchors = 0 ∧ enddocCount docNoAnchors = 0 ∧
    (cmd_add_section "intro".data fsNoAnchors).1 = Except.ok () ∧
    ((cmd_add_section "intro".data fsNoAnchors).2).mainTex = some docNoAnchors :=
  ⟨by decide, by decide, rfl, rfl⟩

/-- C9 counterexample: the check-then-update sequence is NOT atomic.  In
the machine read off the source (lock, read+release, re-lock, write), the
schedule `racySched` is a valid interleaving of two deliveries 1 ms apart
in which BOTH trigger a rebuild, whereas the atomic check-then-update
semantics asserted by the claim suppresses the second delivery. -/
theorem watch_atomicity_counterexample :
    (runSched 0 1 racySched).firedA = true ∧
    (runSched 0 1 racySched).firedB = true ∧
    (1 : Int) - 0 < debounceMs ∧
    (runAtomicPair 0 1).2 = false := by decide

/-- C9 (amended): the mutual-exclusion mechanism covers the elapsed-time
read and the timestamp write in TWO separate critical sections: after
handler A's check step the lock is free while A's write is still pending
(program counter 2, timestamp unwritten, not fired), and consequently the
interleaving `racySched` lets two deliveries 1 ms apart both trigger. -/
theorem watch_check_update_separate :
    (watchHandlerStep false 0 (watchHandlerStep false 0 watchMachineInit)).lock =
      none ∧
    (watchHandlerStep false 0 (watchHandlerStep false 0 watchMachineInit)).pcA = 2 ∧
    (watchHandlerStep false 0 (watchHandlerStep false 0 watchMachineInit)).firedA =
      false ∧
    (watchHandlerStep false 0 (watchHandlerStep false 0 watchMachineInit)).last =
      watchInit ∧
    (runSched 0 1 racySched).firedA = true ∧
    (runSched 0 1 racySched).firedB = true ∧
    (1 : Int) - 0 < debounceMs := by decide

/-- Shape of a successful `cmd_build` run: once the config is read, the
entry exists, an engine is resolved and the subprocess exits successfully,
the result is decided by the `outdir/main.pdf` check and the scan. -/
lemma cmd_build_success_shape (pref : EnginePref) (outdir : List Char)
    (env : BuildEnv) (mainTex eng : List Char) (c : SpawnedCmd)
    (hc : env.cfgMainTex = some mainTex) (hm : env.mainExists = true)
    (hp : pick_engine pref env.avail = Except.ok eng) (hr : env.runOk = true)
    (hcmd : mkCmd eng mainTex outdir = some c) :
    cmd_build pref outdir env =
      (if hasTop env.outTree "main.pdf".data then
        (Except.ok [outdir, "main.pdf".data], [c])
      else
        match guess_pdf_path outdir env.outTree with
        | Except.ok p => (Except.ok p, [c])
        | Except.error e => (Except.error e, [c])) := by
  unfold cmd_build
  rw [hc]
  dsimp only
  rw [if_neg (by simp [hm]), hp]
  dsimp only
  rw [hcmd]
  dsimp only
  rw [if_neg (by simp [hr])]

/-- C2 counterexample: with entry file `tex/paper.tex` (stem `paper`), the
path the claim calls conventional — `build/paper.pdf` — exists in the
output tree, yet the successful build returns `build/alpha.pdf` (the first
`pdf` in traversal order after checking the fixed name `build/main.pdf`),
not the claimed `outDir/<entryStem>.pdf`. -/
theorem build_conventional_path_counterexample :
    specConventionalPath "tex/paper.tex".data "build".data =
      ["build".data, "paper.pdf".data] ∧
    hasTop envStem.outTree "paper.pdf".data = true ∧
    (cmd_build EnginePref.tectonic "build".data envStem).1 =
      Except.ok ["build".data, "alpha.pdf".data] ∧
    ¬ (["build".data, "alpha.pdf".data] = ["build".data, "paper.pdf".data]) := by
  refine ⟨rfl, rfl, ?_, by decide⟩
  have hfp : firstPdfEntry "build".data envStem.outTree =
      some ["build".data, "alpha.pdf".data] := by
    simp [firstPdfEntry, walkAll, walkList, envStem, hasPdfExt, rustExtension]
  have hshape := cmd_build_success_shape EnginePref.tectonic "build".data envStem
    "tex/paper.tex".data "tectonic".data _ rfl rfl rfl rfl rfl
  rw [hshape, if_neg (by decide)]
  unfold guess_pdf_path
  rw [if_neg (by decide), hfp]

/-- C2 (amended): for every successful build invocation (config read,
entry present, an engine resolved, subprocess succeeded), the artifact is
`outDir/main.pdf` — the fixed file name `main.pdf`, independent of the
entry stem — when that path exists; otherwise the first entry of the
recursive output-directory scan (in traversal order) whose path has the
`pdf` extension; otherwise the artifact-not-found error. -/
theorem build_artifact_resolution (pref : EnginePref) (outdir : List Char)
    (env : BuildEnv) (mainTex eng : List Char)
    (hc : env.cfgMainTex = some mainTex) (hm : env.mainExists = true)
    (hp : pick_engine pref env.avail = Except.ok eng) (hr : env.runOk = true) :
    (hasTop env.outTree "main.pdf".data = true →
      (cmd_build pref outdir env).1 = Except.ok [outdir, "main.pdf".data]) ∧
    (hasTop env.outTree "main.pdf".data = false →
      (∀ p, firstPdfEntry outdir env.outTree = some p →
        (cmd_build pref outdir env).1 = Except.ok p) ∧
      (firstPdfEntry outdir env.outTree = none →
        (cmd_build pref outdir env).1 = Except.error BuildErr.artifactNotFound)) := by
  obtain ⟨c, hcmd⟩ : ∃ c, mkCmd eng mainTex outdir = some c :=
    Option.isSome_iff_exists.mp
      (mkCmd_isSome_of_mem eng mainTex outdir pref (pick_engine_mem pref env.avail eng hp))
  have hred := cmd_build_success_shape pref outdir env mainTex eng c hc hm hp hr hcmd
  constructor
  · intro ht
    rw [hred, if_pos (by simp [ht])]
  · intro hf
    constructor
    · intro p hfp
      rw [hred, if_neg (by simp [hf])]
      unfold guess_pdf_path
      rw [if_neg (by simp [hf]), hfp]
    · intro hfn
      rw [hred, if_neg (by simp [hf])]
      unfold guess_pdf_path
      rw [if_neg (by simp [hf]), hfn]

/-- C2 witness: `build/main.pdf` absent, the scan finds
`build/sub/main.pdf` and the build returns it. -/
theorem build_artifact_resolution_witness :
    (cmd_build EnginePref.tectonic "build".data envScan).1 =
      Except.ok ["build".data, "sub".data, "main.pdf".data] := by
  have hfp : firstPdfEntry "build".data envScan.outTree =
      some ["build".data, "sub".data, "main.pdf".data] := by
    simp [firstPdfEntry, walkAll, walkList, envScan, hasPdfExt, rustExtension]
  exact ((build_artifact_resolution EnginePref.tectonic "build".data envScan
      "tex/main.tex".data "tectonic".data rfl rfl rfl rfl).2 rfl).1
    ["build".data, "sub".data, "main.pdf".data] hfp

/-! ### Splice shape lemmas for structured documents -/

lemma markerMatchLen_incInput (x : List Char) :
    markerMatchLen (incInput ++ x) = none :=
  markerMatchLen_backslash _

lemma enddocMatchLen_incHead (x : List Char) :
    enddocMatchLen (incHead ++ x) = none :=
  enddocMatchLen_percent _

lemma headNonWs_includeLine (n x : List Char) :
    headNonWs (includeLine n ++ x) = true := rfl

/-- Transfer "no marker match inside `pre`" across a change of the text
after the marker: a match starting inside `pre` cannot see past the
marker's `'%'`. -/
lemma preNone_transfer (pre post post' : List Char)
    (hpreNone : ∀ j < pre.length,
      lineStartAt (pre ++ (markerLine ++ '\n' :: post)) j = true →
      markerMatchLen ((pre ++ (markerLine ++ '\n' :: post)).drop j) = none) :
    ∀ j < pre.length, lsAt pre true j = true →
      markerMatchLen (pre.drop j ++ (markerLine ++ '\n' :: post')) = none := by
  intro j hj hls
  have hls0 : lineStartAt (pre ++ (markerLine ++ '\n' :: post)) j = true := by
    unfold lineStartAt
    rw [lsAt_append_left pre _ true j (by omega)]
    exact hls
  have h0 := hpreNone j hj hls0
  rw [List.drop_append_of_le_length (by omega)] at h0
  rw [show markerLine ++ '\n' :: post = '%' :: (markerTail ++ '\n' :: post) from rfl] at h0
  rw [show markerLine ++ '\n' :: post' = '%' :: (markerTail ++ '\n' :: post') from rfl]
  rw [markerMatchLen_stop (pre.drop j)
    (by rw [ne_eq, List.drop_eq_nil_iff]; omega) _ (markerTail ++ '\n' :: post)]
  exact h0

/-- One marker-branch splice on a document of the shape
`pre ++ marker line ++ newline ++ post`: the include text lands directly
below the marker line. -/
lemma spliceSection_marker_eq (pre post n : List Char)
    (hpre : pre = [] ∨ pre.getLast? = some '\n')
    (hpost : headNonWs post = true)
    (hpreNone : ∀ j < pre.length, lsAt pre true j = true →
      markerMatchLen (pre.drop j ++ (markerLine ++ '\n' :: post)) = none) :
    spliceSection n (pre ++ (markerLine ++ '\n' :: post)) =
      pre ++ (markerLine ++ '\n' :: (includeLine n ++ '\n' :: post)) := by
  have hfind : findMarker (pre ++ (markerLine ++ '\n' :: post)) =
      some (pre.length, 17) := by
    apply findPat_eq_some
    · simp [List.length_append]
    · rw [List.drop_left]
      exact markerMatchLen_marker post hpost
    · exact lineStartAt_boundary pre _ hpre
    · intro j hj hls
      rw [List.drop_append_of_le_length (by omega)]
      refine hpreNone j hj ?_
      unfold lineStartAt at hls
      rwa [lsAt_append_left pre _ true j (by omega)] at hls
  unfold spliceSection
  rw [hfind]
  rw [if_pos (by simp)]
  unfold replaceFirst
  dsimp only
  rw [List.take_left]
  rw [List.drop_append 17]
  rw [show ((markerLine ++ '\n' :: post).drop 17 : List Char) = '\n' :: post from by
    rw [show (17 : Nat) = markerLine.length from rfl, List.drop_left]]
  rw [show markerRepl n = markerLine ++ '\n' :: includeLine n from rfl]
  simp only [List.append_assoc, List.cons_append, List.nil_append]

/-- One marker-branch splice for ARBITRARY text after the marker line:
the greedy trailing `\s*$` consumes `k` extra white-space characters (up to
a line boundary), so the retained tail is `('\n' :: post).drop k`. -/
lemma spliceSection_marker_eq_k (pre post n : List Char) (k : Nat)
    (hpre : pre = [] ∨ pre.getLast? = some '\n')
    (hmk : markerMatchLen (markerLine ++ '\n' :: post) = some (17 + k))
    (hpreNone : ∀ j < pre.length, lsAt pre true j = true →
      markerMatchLen (pre.drop j ++ (markerLine ++ '\n' :: post)) = none) :
    spliceSection n (pre ++ (markerLine ++ '\n' :: post)) =
      pre ++ (markerLine ++ '\n' :: (includeLine n ++ ('\n' :: post).drop k)) := by
  have hfind : findMarker (pre ++ (markerLine ++ '\n' :: post)) =
      some (pre.length, 17 + k) := by
    apply findPat_eq_some
    · simp [List.length_append]
    · rw [List.drop_left]
      exact hmk
    · exact lineStartAt_boundary pre _ hpre
    · intro j hj hls
      rw [List.drop_append_of_le_length (by omega)]
      refine hpreNone j hj ?_
      unfold lineStartAt at hls
      rwa [lsAt_append_left pre _ true j (by omega)] at hls
  unfold spliceSection
  rw [hfind]
  rw [if_pos (by simp)]
  unfold replaceFirst
  dsimp only
  rw [List.take_left]
  rw [List.drop_append (17 + k)]
  rw [show (17 : Nat) + k = markerLine.length + k from rfl]
  rw [List.drop_append k]
  rw [show markerRepl n = markerLine ++ '\n' :: includeLine n from rfl]
  simp only [List.append_assoc, List.cons_append, List.nil_append]

/-- One fallback-branch splice on a marker-free document of the shape
`pre ++ terminal directive ++ post`: the include text lands directly
before the end-of-document directive. -/
lemma spliceSection_enddoc_eq (pre post n : List Char)
    (hpre : pre = [] ∨ pre.getLast? = some '\n')
    (hNoMarker : ∀ j ≤ (pre ++ (enddocLit ++ post)).length,
      lineStartAt (pre ++ (enddocLit ++ post)) j = true →
      markerMatchLen ((pre ++ (enddocLit ++ post)).drop j) = none)
    (hpreNone : ∀ j < pre.length, lsAt pre true j = true →
      enddocMatchLen (pre.drop j ++ (enddocLit ++ post)) = none) :
    spliceSection n (pre ++ (enddocLit ++ post)) =
      pre ++ (includeLine n ++ '\n' :: (enddocLit ++ post)) := by
  have hfm : findMarker (pre ++ (enddocLit ++ post)) = none :=
    findPat_eq_none _ _ markerMatchLen_nil hNoMarker
  have hfe : findEnddoc (pre ++ (enddocLit ++ post)) = some (pre.length, 14) := by
    apply findPat_eq_some
    · simp [List.length_append]
    · rw [List.drop_left]
      exact enddocMatchLen_self post
    · exact lineStartAt_boundary pre _ hpre
    · intro j hj hls
      rw [List.drop_append_of_le_length (by omega)]
      refine hpreNone j hj ?_
      unfold lineStartAt at hls
      rwa [lsAt_append_left pre _ true j (by omega)] at hls
  unfold spliceSection
  rw [hfm]
  rw [if_neg (by simp)]
  rw [hfe]
  unfold replaceFirst
  dsimp only
  rw [List.take_left]
  rw [List.drop_append 14]
  rw [show ((enddocLit ++ post).drop 14 : List Char) = post from by
    rw [show (14 : Nat) = enddocLit.length from rfl, List.drop_left]]
  unfold enddocRepl
  simp only [List.append_assoc, List.cons_append, List.nil_append]

lemma enddoc_preNone_transfer (pre post : List Char)
    (hpreNone : ∀ j < pre.length, lsAt pre true j = true →
      enddocMatchLen (pre.drop j ++ (enddocLit ++ post)) = none)
    (n q : List Char) :
    ∀ j < pre.length, lsAt pre true j = true →
      enddocMatchLen (pre.drop j ++ (includeLine n ++ q)) = none := by
  intro j hj hls
  have h0 := hpreNone j hj hls
  have hform : includeLine n ++ q =
      '%' :: (" paperx:include\n\\input\x7bsections/".data ++
        (n ++ (".tex\x7d\n".data ++ q))) := by
    simp only [includeLine, List.append_assoc]
    rfl
  rw [hform]
  exact enddocMatchLen_none_transfer (pre.drop j) (enddocLit ++ post) _ h0

/-- C6 counterexample: on a document that contains the marker line twice,
two insertions with different names leave the marker line present twice,
not "exactly once" — the replacement touches only the first occurrence. -/
theorem splice_two_markers_counterexample :
    markerCount docTwoMarkers = 2 ∧
    ¬ ("alpha".data = "beta".data) ∧
    markerCount (spliceSection "beta".data
      (spliceSection "alpha".data docTwoMarkers)) = 2 ∧
    ¬ (markerCount (spliceSection "beta".data
      (spliceSection "alpha".data docTwoMarkers)) = 1) := by decide

/-- C6 (amended): on a document that contains the marker exactly once
(shape `pre ++ marker ++ newline ++ post`, with no marker match inside
`pre` or `post`), two insertions with different names put both include
texts directly below the marker line, the second call's directly after the
marker and above the first call's, and the marker is still present exactly
once.  The first insertion's greedy `\s*$` may additionally consume `k`
characters of blank-line white space after the marker line, so the
retained tail is `('\n' :: post).drop k`, which again starts at a line
boundary.  Names are restricted to `'\n'`-free and `'$'`-free strings (a
`'$'` would engage the replacement-string expansion of the `regex` crate,
and a `'\n'` changes the line structure of the include text). -/
theorem splice_twice_below_marker (pre post n1 n2 : List Char)
    (hpre : pre = [] ∨ pre.getLast? = some '\n')
    (hn1 : '\n' ∉ n1) (hd1 : '$' ∉ n1) (hn2 : '\n' ∉ n2) (hd2 : '$' ∉ n2)
    (hne : ¬ n1 = n2)
    (hpreNone : ∀ j < pre.length,
      lineStartAt (pre ++ (markerLine ++ '\n' :: post)) j = true →
      markerMatchLen ((pre ++ (markerLine ++ '\n' :: post)).drop j) = none)
    (hpostNone : ∀ j ≤ post.length, lsAt post true j = true →
      markerMatchLen (post.drop j) = none) :
    (∃ k, eolAt ('\n' :: post) k = true ∧
      spliceSection n2 (spliceSection n1 (pre ++ (markerLine ++ '\n' :: post))) =
        pre ++ (markerLine ++ '\n' ::
          (includeLine n2 ++ '\n' :: (includeLine n1 ++ ('\n' :: post).drop k)))) ∧
    markerCount (pre ++ (markerLine ++ '\n' :: post)) = 1 ∧
    markerCount (spliceSection n2 (spliceSection n1
      (pre ++ (markerLine ++ '\n' :: post)))) = 1 := by
  obtain ⟨k, hmk, heol, hle⟩ := markerMatchLen_marker_general post
  have hs1 := spliceSection_marker_eq_k pre post n1 k hpre hmk
    (preNone_transfer pre post post hpreNone)
  have hs2 := spliceSection_marker_eq pre
    (includeLine n1 ++ ('\n' :: post).drop k) n2 hpre
    (headNonWs_includeLine n1 _)
    (preNone_transfer pre post (includeLine n1 ++ ('\n' :: post).drop k) hpreNone)
  refine ⟨⟨k, heol, ?_⟩, ?_, ?_⟩
  · rw [hs1, hs2]
  · unfold markerCount
    rw [countPat_append_of_none markerMatchLen pre (markerLine ++ '\n' :: post) true
      (preNone_transfer pre post post hpreNone)]
    rw [lsEnd_true pre hpre]
    rw [markerCount_block post (by rw [hmk]; rfl)]
    rw [countPat_eq_zero markerMatchLen post true markerMatchLen_nil hpostNone]
  · rw [hs1, hs2]
    unfold markerCount
    rw [countPat_append_of_none markerMatchLen pre
      (markerLine ++ '\n' ::
        (includeLine n2 ++ '\n' :: (includeLine n1 ++ ('\n' :: post).drop k)))
      true (preNone_transfer pre post _ hpreNone)]
    rw [lsEnd_true pre hpre]
    rw [markerCount_block _
      (by rw [markerMatchLen_marker _ (headNonWs_includeLine n2 _)]; rfl)]
    rw [countPat_includeLine markerMatchLen n2 _ hn2 (markerMatchLen_incHead _)
      (markerMatchLen_incInput _)]
    rw [countPat_nl_cons markerMatchLen _ true (markerMatchLen_nl _)]
    rw [countPat_includeLine markerMatchLen n1 _ hn1 (markerMatchLen_incHead _)
      (markerMatchLen_incInput _)]
    rw [countPat_drop_zero markerMatchLen post k markerMatchLen_nil
      markerMatchLen_nl heol hpostNone]

/-- C6 witness: the marker counts for a concrete instantiation of the
amended claim, obtained by applying the theorem. -/
theorem splice_twice_below_marker_witness :
    markerCount ("A\n".data ++ (markerLine ++ '\n' :: "B\n".data)) = 1 ∧
    markerCount (spliceSection "beta".data (spliceSection "alpha".data
      ("A\n".data ++ (markerLine ++ '\n' :: "B\n".data)))) = 1 :=
  (splice_twice_below_marker "A\n".data "B\n".data "alpha".data "beta".data
    (by decide) (by decide) (by decide) (by decide) (by decide) (by decide)
    (by decide) (by decide)).2

/-- C7 counterexample: on a marker-free document with two terminal
directives, the splice leaves two terminal directives, not "exactly one" —
only the first occurrence is rewritten. -/
theorem splice_two_enddocs_counterexample :
    markerCount docTwoEnddocs = 0 ∧
    enddocCount docTwoEnddocs = 2 ∧
    enddocCount (spliceSection "alpha".data docTwoEnddocs) = 2 ∧
    ¬ (enddocCount (spliceSection "alpha".data docTwoEnddocs) = 1) := by decide

/-- C7 (amended): on a marker-free document containing the terminal
directive exactly once (shape `pre ++ \end-directive ++ post`, no marker
match anywhere, no other terminal match), the splice inserts the include
text immediately before the terminal directive, and the result contains
exactly one terminal directive.  Names are restricted as in the C6
theorem. -/
theorem splice_before_enddoc (pre post n : List Char)
    (hpre : pre = [] ∨ pre.getLast? = some '\n')
    (hn : '\n' ∉ n) (hdn : '$' ∉ n)
    (hNoMarker : ∀ j ≤ (pre ++ (enddocLit ++ post)).length,
      lineStartAt (pre ++ (enddocLit ++ post)) j = true →
      markerMatchLen ((pre ++ (enddocLit ++ post)).drop j) = none)
    (hpreNone : ∀ j < pre.length, lsAt pre true j = true →
      enddocMatchLen (pre.drop j ++ (enddocLit ++ post)) = none)
    (hpostNone : ∀ j ≤ post.length, lsAt post false j = true →
      enddocMatchLen (post.drop j) = none) :
    spliceSection n (pre ++ (enddocLit ++ post)) =
      pre ++ (includeLine n ++ '\n' :: (enddocLit ++ post)) ∧
    enddocCount (pre ++ (enddocLit ++ post)) = 1 ∧
    markerCount (pre ++ (enddocLit ++ post)) = 0 ∧
    enddocCount (spliceSection n (pre ++ (enddocLit ++ post))) = 1 := by
  have hs := spliceSection_enddoc_eq pre post n hpre hNoMarker hpreNone
  refine ⟨hs, ?_, ?_, ?_⟩
  · unfold enddocCount
    rw [countPat_append_of_none enddocMatchLen pre (enddocLit ++ post) true hpreNone]
    rw [lsEnd_true pre hpre]
    rw [enddocCount_block post]
    rw [countPat_eq_zero enddocMatchLen post false enddocMatchLen_nil hpostNone]
  · exact countPat_eq_zero markerMatchLen _ true markerMatchLen_nil hNoMarker
  · rw [hs]
    unfold enddocCount
    rw [countPat_append_of_none enddocMatchLen pre
      (includeLine n ++ '\n' :: (enddocLit ++ post)) true
      (enddoc_preNone_transfer pre post hpreNone n _)]
    rw [lsEnd_true pre hpre]
    rw [countPat_includeLine enddocMatchLen n _ hn (enddocMatchLen_incHead _)
      (enddocMatchLen_incInput _)]
    rw [countPat_nl_cons enddocMatchLen _ true (enddocMatchLen_nl _)]
    rw [enddocCount_block post]
    rw [countPat_eq_zero enddocMatchLen post false enddocMatchLen_nil hpostNone]

/-- C7 witness: a concrete instantiation of the amended claim. -/
theorem splice_before_enddoc_witness :
    spliceSection "alpha".data ("A\n".data ++ (enddocLit ++ "\nB\n".data)) =
      "A\n".data ++ (includeLine "alpha".data ++ '\n' ::
        (enddocLit ++ "\nB\n".data)) ∧
    enddocCount ("A\n".data ++ (enddocLit ++ "\nB\n".data)) = 1 ∧
    markerCount ("A\n".data ++ (enddocLit ++ "\nB\n".data)) = 0 ∧
    enddocCount (spliceSection "alpha".data
      ("A\n".data ++ (enddocLit ++ "\nB\n".data))) = 1 :=
  splice_before_enddoc "A\n".data "\nB\n".data "alpha".data
    (by decide) (by decide) (by decide) (by decide) (by decide) (by decide)

end PaperX
